import Mathlib

/-!
SoPlex `UnitVectorBase<R>` (src/soplex/unitvectorbase.h)

A shallow embedding of the unit-vector specialisation of the SoPlex sparse vector.

* Memory is explicit.  A `World` holds the element cells (`Element` values, addressed by
  `Addr`) and, for every sparse-vector object, the data of its `SVectorBase` sub-object.
  A `UnitVectorBase` object is identified with the address of its embedded member `themem`
  (the member sits at a fixed offset inside the object, so `this != &rhs` holds exactly when
  the two `themem` addresses differ).
* `assert(c)` is modelled as an early exit with a `Violation`.
* `ENABLE_CONSISTENCY_CHECKS` is the Boolean parameter `checks`.
* `svectorbase.h` is not part of the sources at hand; the operations of `SVectorBase` used by
  `UnitVectorBase` are modelled from the specification (section 4.1) and marked as such.
-/

namespace soplex

/-! ## Data model -/

/-- Address of an element cell (a value of type `Element*`), counted in elements. -/
abbrev Addr := Int

/-- The type `SVectorBase<R>::Element`: one (index, value) pair. -/
structure Element (R : Type) where
  idx : Int
  val : R
deriving DecidableEq

/-- Contract violations: a failed `assert`. -/
inductive Violation where
  | positionOutOfRange
  | capacityExceeded
  | sizeOutOfRange
  | inconsistent
deriving DecidableEq

/-- Modelled from the spec: the ownership mode of a sparse vector (section 3: a SparseVector
"either owns its backing array ... or borrows a caller-supplied array"; the mode is "explicit
and immutable after construction").  `svectorbase.h` is missing from the sources. -/
inductive Ownership where
  | owns (region : Addr)
  | borrows (region : Addr)
deriving DecidableEq

/-- Modelled from the spec: the backing region that an ownership mode declares. -/
def Ownership.region : Ownership → Addr
  | .owns p => p
  | .borrows p => p

/-- Modelled from the spec: the attributes of `SVectorBase` (section 3: "a reference to a
backing element array, a count of currently used elements (`size`), and a capacity (`max`)"),
read by the accessors `mem()`, `size()`, `max()`.  `svectorbase.h` is missing from the
sources. -/
structure SVectorBase where
  mem : Addr
  size : Int
  max : Int
  mode : Ownership
deriving DecidableEq

/-- The memory: the element cells, and the `SVectorBase` sub-object of the vector object
living at each address. -/
structure World (R : Type) where
  elem : Addr → Element R
  vec : Addr → SVectorBase

/-! ## `SVectorBase` (modelled from the specification) -/

/-- Modelled from the spec: the constructor `SVectorBase(n, p_mem)` (section 3, Lifecycle:
"created with a given capacity (and optionally a borrowed memory region)"); the new vector
is empty.  `svectorbase.h` is missing from the sources. -/
def SVectorBase.create (n : Int) (p_mem : Addr) : SVectorBase :=
  { mem := p_mem, size := 0, max := n, mode := .borrows p_mem }

/-- Modelled from the spec: `SVectorBase::add(i, v)` (section 4.1: "appends a new element.
Precondition: `size < max` ... Postcondition: `size` increases by 1.  Fails with a
capacity-exceeded condition if `size == max`").  `svectorbase.h` is missing from the
sources. -/
def SVectorBase.add {R : Type} (s : SVectorBase) (m : Addr → Element R) (i : Int) (v : R) :
    Except Violation (SVectorBase × (Addr → Element R)) :=
  if s.size < s.max then
    .ok ({ s with size := s.size + 1 }, Function.update m (s.mem + s.size) ⟨i, v⟩)
  else
    .error .capacityExceeded

/-- Modelled from the spec: `SVectorBase::set_size(n)` (section 4.1: "directly overrides the
logical element count without touching storage content ... Precondition: `0 ≤ n ≤ max`").
`svectorbase.h` is missing from the sources. -/
def SVectorBase.set_size (s : SVectorBase) (n : Int) : Except Violation SVectorBase :=
  if 0 ≤ n ∧ n ≤ s.max then .ok { s with size := n } else .error .sizeOutOfRange

/-- Modelled from the spec: `SVectorBase::index(position)` (section 4.1: "returns the
distinct index associated with that position", precondition `position < size`, 0-based).
`svectorbase.h` is missing from the sources. -/
def SVectorBase.index {R : Type} (s : SVectorBase) (m : Addr → Element R) (n : Int) :
    Except Violation Int :=
  if 0 ≤ n ∧ n < s.size then .ok (m (s.mem + n)).idx else .error .positionOutOfRange

/-- Modelled from the spec: `SVectorBase::value(position)` (section 4.1: "returns the scalar
value stored at the given internal position (0-based, `< size`)").  `svectorbase.h` is
missing from the sources. -/
def SVectorBase.value {R : Type} (s : SVectorBase) (m : Addr → Element R) (n : Int) :
    Except Violation R :=
  if 0 ≤ n ∧ n < s.size then .ok (m (s.mem + n)).val else .error .positionOutOfRange

/-- Modelled from the spec: `SVectorBase::isConsistent()` (section 4.1: "storage identity
matches declared ownership mode, `size ≤ max`, indices within `[0, size)` are pairwise
distinct.  Returns a boolean; never throws; ... compiled out when diagnostics are
disabled").  `svectorbase.h` is missing from the sources. -/
def SVectorBase.isConsistent {R : Type} (checks : Bool) (s : SVectorBase)
    (m : Addr → Element R) : Bool :=
  if checks then
    decide (s.mem = s.mode.region) && decide (s.size ≤ s.max) &&
      decide (((List.range s.size.toNat).map (fun k => (m (s.mem + (k : Int))).idx)).Nodup)
  else
    true

/-- Modelled from the spec: the result of the macro `SPX_MSG_INCONSISTENT(name)` of
`spxdefines.h` (missing from the sources): the check "returns a boolean" and an invariant
violation is "surfaced as a boolean" (sections 4.1 and 7), so a detected inconsistency
is reported as `false`. -/
def SPX_MSG_INCONSISTENT : Bool := false

/-! ## Base-class operations applied to an object in memory -/

/-- The base initialiser `SVectorBase<R>(n, p_mem)` of the object at `this`. -/
def World.create {R : Type} (w : World R) (this : Addr) (n : Int) (p_mem : Addr) : World R :=
  { w with vec := Function.update w.vec this (SVectorBase.create n p_mem) }

/-- The call `SVectorBase<R>::add(i, v)` on the object at `this`. -/
def World.add {R : Type} (w : World R) (this : Addr) (i : Int) (v : R) :
    Except Violation (World R) :=
  match (w.vec this).add w.elem i v with
  | .error e => .error e
  | .ok (s, m) => .ok { elem := m, vec := Function.update w.vec this s }

/-- The call `set_size(n)` on the object at `this`. -/
def World.set_size {R : Type} (w : World R) (this : Addr) (n : Int) :
    Except Violation (World R) :=
  match (w.vec this).set_size n with
  | .error e => .error e
  | .ok s => .ok { w with vec := Function.update w.vec this s }

/-! ## `UnitVectorBase` (from src/soplex/unitvectorbase.h) -/

namespace UnitVectorBase

variable {R : Type}

/-- The inherited accessor `mem()` of the object at `this`. -/
def mem (w : World R) (this : Addr) : Addr := (w.vec this).mem

/-- The inherited accessor `size()` of the object at `this`. -/
def size (w : World R) (this : Addr) : Int := (w.vec this).size

/-- The inherited accessor `max()` of the object at `this`. -/
def max (w : World R) (this : Addr) : Int := (w.vec this).max

/-- The data member `themem` of the object at `this`. -/
def themem (w : World R) (this : Addr) : Element R := w.elem this

/-- The inherited `index(n)` (not overridden by `UnitVectorBase`). -/
def index (w : World R) (this : Addr) (n : Int) : Except Violation Int :=
  (w.vec this).index w.elem n

/-- The member `R value(int n) const`: `assert(n == 0); return 1;`. -/
def value [One R] (_w : World R) (_this : Addr) (n : Int) : Except Violation R :=
  if n = 0 then .ok 1 else .error .positionOutOfRange

/-- The member `bool isConsistent() const`; without `ENABLE_CONSISTENCY_CHECKS` the body is
`return true`. -/
def isConsistent (checks : Bool) (w : World R) (this : Addr) : Bool :=
  if checks then
    if mem w this ≠ this then SPX_MSG_INCONSISTENT
    else if size w this ≠ 1 then SPX_MSG_INCONSISTENT
    else if max w this ≠ 1 then SPX_MSG_INCONSISTENT
    else (w.vec this).isConsistent checks w.elem
  else
    true

/-- The statement `themem = rhs.themem` executed by the object at `this`. -/
def copyElement (w : World R) (this rhs : Addr) : World R :=
  { w with elem := Function.update w.elem this (themem w rhs) }

/-- The statement `assert(isConsistent())` executed by the object at `this`. -/
def assertConsistent (checks : Bool) (w : World R) (this : Addr) : Except Violation (World R) :=
  if isConsistent checks w this then .ok w else .error .inconsistent

/-- The constructor `UnitVectorBase(int i)` building the object at `this`:
base initialiser `SVectorBase<R>(1, &themem)`, then `SVectorBase<R>::add(i, 1.0)`, then
`assert(isConsistent())`. -/
def construct [One R] (checks : Bool) (w : World R) (this : Addr) (i : Int) :
    Except Violation (World R) :=
  match (w.create this 1 this).add this i (1 : R) with
  | .error e => .error e
  | .ok w1 => assertConsistent checks w1 this

/-- The copy constructor `UnitVectorBase(const UnitVectorBase<R>& rhs)` building the object at
`this`: base initialiser `SVectorBase<R>(1, &themem)`, then `themem = rhs.themem`,
`this->set_size(1)`, `assert(isConsistent())`. -/
def copyConstruct (checks : Bool) (w : World R) (this rhs : Addr) :
    Except Violation (World R) :=
  match (copyElement (w.create this 1 this) this rhs).set_size this 1 with
  | .error e => .error e
  | .ok w1 => assertConsistent checks w1 this

/-- The assignment operator `operator=(const UnitVectorBase<R>& rhs)` on the object at `this`:
under the guard `this != &rhs` it runs `themem = rhs.themem`, `this->set_size(1)`,
`assert(isConsistent())`; it returns `*this`. -/
def assign (checks : Bool) (w : World R) (this rhs : Addr) : Except Violation (World R) :=
  if this ≠ rhs then
    match (copyElement w this rhs).set_size this 1 with
    | .error e => .error e
    | .ok w1 => assertConsistent checks w1 this
  else
    .ok w

end UnitVectorBase

/-! ## Client programs

The claims quantify over "every unit vector produced by the constructors and copy operations".
A client program is a list of statements; `run` executes it on a world. -/

/-- One statement of a client program over `UnitVectorBase` objects:
`UnitVectorBase<R> a(i);`, `UnitVectorBase<R> a(rhs);` or `t = rhs;`. -/
inductive Op where
  | construct (a : Addr) (i : Int)
  | copyConstruct (a rhs : Addr)
  | assign (t rhs : Addr)
deriving DecidableEq

/-- Runs one statement. -/
def Op.exec {R : Type} [One R] (checks : Bool) (w : World R) : Op → Except Violation (World R)
  | .construct a i => UnitVectorBase.construct checks w a i
  | .copyConstruct a rhs => UnitVectorBase.copyConstruct checks w a rhs
  | .assign t rhs => UnitVectorBase.assign checks w t rhs

/-- A statement is permitted when the objects it reads or assigns are alive and the object it
declares is a new one (distinct objects have distinct addresses). -/
def Op.permitted (live : List Addr) : Op → Bool
  | .construct a _ => decide (a ∉ live)
  | .copyConstruct a rhs => decide (a ∉ live) && decide (rhs ∈ live)
  | .assign t rhs => decide (t ∈ live) && decide (rhs ∈ live)

/-- The objects alive after a statement. -/
def Op.liveAfter (live : List Addr) : Op → List Addr
  | .construct a _ => a :: live
  | .copyConstruct a _ => a :: live
  | .assign _ _ => live

/-- Every statement of the program is permitted where it stands. -/
def permitted (live : List Addr) : List Op → Bool
  | [] => true
  | op :: ops => op.permitted live && permitted (op.liveAfter live) ops

/-- The objects alive after the program. -/
def liveAfter (live : List Addr) : List Op → List Addr
  | [] => live
  | op :: ops => liveAfter (op.liveAfter live) ops

/-- Runs a program, stopping at the first violation. -/
def run {R : Type} [One R] (checks : Bool) (w : World R) : List Op → Except Violation (World R)
  | [] => .ok w
  | op :: ops =>
    match op.exec checks w with
    | .error e => .error e
    | .ok w1 => run checks w1 ops

/-- One step of a chain of copies of a current vector: copy-construct a new vector from it, or
copy-assign it into an existing vector.  The vector written becomes the current one. -/
inductive CopyStep where
  | copyConstruct (a : Addr)
  | copyAssignInto (t : Addr)
deriving DecidableEq

/-- The vector a copy step writes. -/
def CopyStep.target : CopyStep → Addr
  | .copyConstruct a => a
  | .copyAssignInto t => t

/-- The statement a copy step stands for, `cur` being the current vector. -/
def CopyStep.toOp (cur : Addr) : CopyStep → Op
  | .copyConstruct a => .copyConstruct a cur
  | .copyAssignInto t => .assign t cur

/-- The program of a chain of copies starting at `cur`. -/
def chainOps (cur : Addr) : List CopyStep → List Op
  | [] => []
  | s :: ss => s.toOp cur :: chainOps s.target ss

/-- The vector obtained at the end of a chain of copies starting at `cur`. -/
def chainEnd (cur : Addr) : List CopyStep → Addr
  | [] => cur
  | s :: ss => chainEnd s.target ss

/-- The state of the object at `a` that the class maintains: storage is the embedded slot,
`size = 1`, `max = 1`, the declared region is the embedded slot, and the stored scalar is 1. -/
def Good {R : Type} [One R] (w : World R) (a : Addr) : Prop :=
  (w.vec a).mem = a ∧ (w.vec a).size = 1 ∧ (w.vec a).max = 1 ∧ (w.vec a).mode.region = a ∧
    (w.elem a).val = 1

/-- A world used in worked examples: every cell holds `(0, 0)`, every header is empty. -/
def blank : World Int :=
  { elem := fun _ => ⟨0, 0⟩, vec := fun _ => ⟨0, 0, 0, .owns 0⟩ }

/-- The world after `UnitVectorBase<R> t(0); UnitVectorBase<R> s(3);`, the objects placed
at the addresses 10 and 20 of `blank`. -/
def twoVectors : World Int :=
  { elem := Function.update (Function.update blank.elem 10 ⟨0, 1⟩) 20 ⟨3, 1⟩,
    vec := Function.update (Function.update blank.vec 10 ⟨10, 1, 1, .borrows 10⟩) 20
      ⟨20, 1, 1, .borrows 20⟩ }

/-- The world after `UnitVectorBase<R> u(3); u.set_size(0);`, the object placed at the
address 5 of `blank`. -/
def shrunk : World Int :=
  { elem := Function.update blank.elem 5 ⟨3, 1⟩,
    vec := Function.update blank.vec 5 ⟨5, 0, 1, .borrows 5⟩ }

/-- The index each vector is expected to report after a statement, in the abstract view of
section 3 (a unit vector is the pair `(i, 1)`; a copy takes the index of its source). -/
def Op.indexAfter (ix : Addr → Int) : Op → Addr → Int
  | .construct a i => Function.update ix a i
  | .copyConstruct a rhs => Function.update ix a (ix rhs)
  | .assign t rhs => Function.update ix t (ix rhs)

/-- The index each vector is expected to report after a program, in the abstract view. -/
def indexAfter (ix : Addr → Int) : List Op → Addr → Int
  | [] => ix
  | op :: ops => indexAfter (op.indexAfter ix) ops

/-- Adds the listed elements one after the other with `SVectorBase::add`, stopping at the
first violation (the scenario of section 8 of the specification). -/
def SVectorBase.addAll {R : Type} (s : SVectorBase) (m : Addr → Element R) :
    List (Int × R) → Except Violation (SVectorBase × (Addr → Element R))
  | [] => .ok (s, m)
  | e :: es =>
    match s.add m e.1 e.2 with
    | .error x => .error x
    | .ok (s1, m1) => SVectorBase.addAll s1 m1 es

/-- Modelled from the spec: the data-model invariant of a sparse vector (section 3:
"`0 ≤ size ≤ max`; all indices among the first `size` elements are distinct and
non-negative"). -/
def SVectorBase.invariant {R : Type} (s : SVectorBase) (m : Addr → Element R) : Bool :=
  decide (0 ≤ s.size ∧ s.size ≤ s.max) &&
    decide (((List.range s.size.toNat).map (fun k => (m (s.mem + (k : Int))).idx)).Nodup) &&
    ((List.range s.size.toNat).map (fun k => (m (s.mem + (k : Int))).idx)).all
      (fun j => decide (0 ≤ j))

/-- The world `twoVectors` with the header of the object at 10 changed: capacity and size are
still 1, but `mem()` is the slot of the other vector (address 20). -/
def aliased : World Int :=
  { elem := twoVectors.elem,
    vec := Function.update twoVectors.vec 10 ⟨20, 1, 1, .borrows 20⟩ }

/-! ## Basic facts -/

namespace UnitVectorBase

variable {R : Type}

theorem isConsistent_of_fields (checks : Bool) (w : World R) (a : Addr)
    (h1 : (w.vec a).mem = a) (h2 : (w.vec a).size = 1) (h3 : (w.vec a).max = 1)
    (h4 : (w.vec a).mode.region = a) : isConsistent checks w a = true := by
  cases checks <;>
    simp [isConsistent, SVectorBase.isConsistent, mem, size, max, h1, h2, h3, h4,
      List.range_succ]

theorem fields_of_isConsistent (w : World R) (a : Addr) (h : isConsistent true w a = true) :
    (w.vec a).mem = a ∧ (w.vec a).size = 1 ∧ (w.vec a).max = 1 ∧
      (w.vec a).mode.region = a := by
  unfold isConsistent at h
  by_cases h1 : mem w a = a <;> by_cases h2 : size w a = 1 <;> by_cases h3 : max w a = 1 <;>
    simp [h1, h2, h3, SPX_MSG_INCONSISTENT, SVectorBase.isConsistent] at h
  simp only [mem, size, max] at h1 h2 h3
  exact ⟨h1, h2, h3, by rw [← h.1.1, h1]⟩

theorem construct_eq [One R] (checks : Bool) (w : World R) (this : Addr) (i : Int) :
    construct checks w this i =
      .ok { elem := Function.update w.elem this ⟨i, 1⟩,
            vec := Function.update w.vec this ⟨this, 1, 1, .borrows this⟩ } := by
  cases checks <;>
    simp [construct, World.create, World.add, assertConsistent, SVectorBase.create,
      SVectorBase.add, isConsistent,
      SVectorBase.isConsistent, mem, size, max, Ownership.region, List.range_succ]

theorem copyConstruct_eq (checks : Bool) (w : World R) (this rhs : Addr) :
    copyConstruct checks w this rhs =
      .ok { elem := Function.update w.elem this (w.elem rhs),
            vec := Function.update w.vec this ⟨this, 1, 1, .borrows this⟩ } := by
  cases checks <;>
    simp [copyConstruct, World.create, World.set_size, copyElement, themem, assertConsistent,
      SVectorBase.create, SVectorBase.set_size, isConsistent,
      SVectorBase.isConsistent, mem, size, max, Ownership.region, List.range_succ]

theorem assign_eq (checks : Bool) (w : World R) (this rhs : Addr) (hne : this ≠ rhs)
    (h1 : (w.vec this).mem = this) (h3 : (w.vec this).max = 1)
    (h4 : (w.vec this).mode.region = this) :
    assign checks w this rhs =
      .ok { elem := Function.update w.elem this (w.elem rhs),
            vec := Function.update w.vec this { w.vec this with size := 1 } } := by
  cases checks <;>
    simp [assign, hne, World.set_size, copyElement, themem, assertConsistent,
      SVectorBase.set_size, isConsistent,
      SVectorBase.isConsistent, mem, size, max, h1, h3, h4, List.range_succ]

end UnitVectorBase

open UnitVectorBase

variable {R : Type}

/-! ## The state maintained by the class is preserved by every statement -/

theorem good_isConsistent [One R] (checks : Bool) (w : World R) (a : Addr) (h : Good w a) :
    isConsistent checks w a = true :=
  isConsistent_of_fields checks w a h.1 h.2.1 h.2.2.1 h.2.2.2.1

theorem index_of_fields (w : World R) (a : Addr) (h1 : (w.vec a).mem = a)
    (h2 : (w.vec a).size = 1) : index w a 0 = .ok (w.elem a).idx := by
  simp [index, SVectorBase.index, h1, h2]

theorem good_index [One R] (w : World R) (a : Addr) (h : Good w a) :
    index w a 0 = .ok (w.elem a).idx :=
  index_of_fields w a h.1 h.2.1

theorem good_construct [One R] (checks : Bool) (w : World R) (live : List Addr) (a : Addr)
    (i : Int) (h : ∀ b ∈ live, Good w b) :
    ∃ w1, construct checks w a i = .ok w1 ∧ (∀ b ∈ a :: live, Good w1 b) ∧
      w1.elem a = ⟨i, 1⟩ := by
  refine ⟨_, construct_eq checks w a i, ?_, by simp⟩
  intro b hb
  by_cases hba : b = a
  · subst hba
    simp [Good, Ownership.region]
  · have hg := h b (by simpa [hba] using hb)
    simpa [Good, Function.update_noteq hba] using hg

theorem good_copyConstruct [One R] (checks : Bool) (w : World R) (live : List Addr)
    (a rhs : Addr) (h : ∀ b ∈ live, Good w b) (hr : rhs ∈ live) :
    ∃ w1, copyConstruct checks w a rhs = .ok w1 ∧ (∀ b ∈ a :: live, Good w1 b) ∧
      w1.elem a = w.elem rhs := by
  refine ⟨_, copyConstruct_eq checks w a rhs, ?_, by simp⟩
  intro b hb
  by_cases hba : b = a
  · subst hba
    simp [Good, Ownership.region, (h rhs hr).2.2.2.2]
  · have hg := h b (by simpa [hba] using hb)
    simpa [Good, Function.update_noteq hba] using hg

theorem good_assign [One R] (checks : Bool) (w : World R) (live : List Addr)
    (t rhs : Addr) (h : ∀ b ∈ live, Good w b) (ht : t ∈ live) (hr : rhs ∈ live) :
    ∃ w1, assign checks w t rhs = .ok w1 ∧ (∀ b ∈ live, Good w1 b) ∧
      w1.elem t = w.elem rhs := by
  by_cases hne : t = rhs
  · subst hne
    exact ⟨w, by simp [assign], h, rfl⟩
  · have hg := h t ht
    refine ⟨_, assign_eq checks w t rhs hne hg.1 hg.2.2.1 hg.2.2.2.1, ?_, by simp⟩
    intro b hb
    by_cases hbt : b = t
    · subst hbt
      simpa [Good, (h rhs hr).2.2.2.2] using ⟨hg.1, hg.2.2.1, hg.2.2.2.1⟩
    · simpa [Good, Function.update_noteq hbt] using h b hb

theorem good_exec [One R] (checks : Bool) (w : World R) (live : List Addr) (op : Op)
    (h : ∀ b ∈ live, Good w b) (hp : op.permitted live = true) :
    ∃ w1, op.exec checks w = .ok w1 ∧ ∀ b ∈ op.liveAfter live, Good w1 b := by
  cases op with
  | construct a i =>
    obtain ⟨w1, h1, h2, _⟩ := good_construct checks w live a i h
    exact ⟨w1, h1, h2⟩
  | copyConstruct a rhs =>
    simp only [Op.permitted, Bool.and_eq_true, decide_eq_true_eq] at hp
    obtain ⟨w1, h1, h2, _⟩ := good_copyConstruct checks w live a rhs h hp.2
    exact ⟨w1, h1, h2⟩
  | assign t rhs =>
    simp only [Op.permitted, Bool.and_eq_true, decide_eq_true_eq] at hp
    obtain ⟨w1, h1, h2, _⟩ := good_assign checks w live t rhs h hp.1 hp.2
    exact ⟨w1, h1, h2⟩

theorem good_run [One R] (checks : Bool) (ops : List Op) :
    ∀ (w : World R) (live : List Addr), (∀ b ∈ live, Good w b) → permitted live ops = true →
      ∃ w1, run checks w ops = .ok w1 ∧ ∀ b ∈ liveAfter live ops, Good w1 b := by
  induction ops with
  | nil => intro w live h _; exact ⟨w, rfl, h⟩
  | cons op ops ih =>
    intro w live h hp
    simp only [permitted, Bool.and_eq_true] at hp
    obtain ⟨w1, h1, h2⟩ := good_exec checks w live op h hp.1
    obtain ⟨w2, h3, h4⟩ := ih w1 (op.liveAfter live) h2 hp.2
    exact ⟨w2, by simp [run, h1, h3], h4⟩

theorem good_chain [One R] (checks : Bool) (steps : List CopyStep) :
    ∀ (w : World R) (live : List Addr) (cur : Addr), (∀ b ∈ live, Good w b) → cur ∈ live →
      permitted live (chainOps cur steps) = true →
      ∃ w1, run checks w (chainOps cur steps) = .ok w1 ∧
        (∀ b ∈ liveAfter live (chainOps cur steps), Good w1 b) ∧
        chainEnd cur steps ∈ liveAfter live (chainOps cur steps) ∧
        (w1.elem (chainEnd cur steps)).idx = (w.elem cur).idx := by
  induction steps with
  | nil => intro w live cur h hc _; exact ⟨w, rfl, h, hc, rfl⟩
  | cons s ss ih =>
    intro w live cur h hc hp
    simp only [chainOps, permitted, Bool.and_eq_true] at hp
    cases s with
    | copyConstruct a =>
      obtain ⟨w1, h1, h2, h3⟩ := good_copyConstruct checks w live a cur h hc
      obtain ⟨w2, h4, h5, h6, h7⟩ :=
        ih w1 (a :: live) a h2 (List.mem_cons_self a live) hp.2
      exact ⟨w2, by simp [chainOps, run, CopyStep.toOp, Op.exec, CopyStep.target, h1, h4],
        h5, h6, by rw [chainEnd, CopyStep.target, h7, h3]⟩
    | copyAssignInto t =>
      have hq := hp.1
      simp only [CopyStep.toOp, Op.permitted, Bool.and_eq_true, decide_eq_true_eq] at hq
      obtain ⟨w1, h1, h2, h3⟩ := good_assign checks w live t cur h hq.1 hq.2
      obtain ⟨w2, h4, h5, h6, h7⟩ := ih w1 live t h2 hq.1 hp.2
      exact ⟨w2, by simp [chainOps, run, CopyStep.toOp, Op.exec, CopyStep.target, h1, h4],
        h5, h6, by rw [chainEnd, CopyStep.target, h7, h3]⟩

theorem permitted_append (ops₁ : List Op) :
    ∀ (live : List Addr) (ops₂ : List Op),
      permitted live (ops₁ ++ ops₂) =
        (permitted live ops₁ && permitted (liveAfter live ops₁) ops₂) := by
  induction ops₁ with
  | nil => intro live ops₂; simp [permitted, liveAfter]
  | cons op ops ih => intro live ops₂; simp [permitted, liveAfter, ih, Bool.and_assoc]

theorem liveAfter_append (ops₁ : List Op) :
    ∀ (live : List Addr) (ops₂ : List Op),
      liveAfter live (ops₁ ++ ops₂) = liveAfter (liveAfter live ops₁) ops₂ := by
  induction ops₁ with
  | nil => intro live ops₂; rfl
  | cons op ops ih => intro live ops₂; simp [liveAfter, ih]

theorem run_append [One R] (checks : Bool) (ops₁ : List Op) :
    ∀ (w w1 : World R) (ops₂ : List Op), run checks w ops₁ = .ok w1 →
      run checks w (ops₁ ++ ops₂) = run checks w1 ops₂ := by
  induction ops₁ with
  | nil => intro w w1 ops₂ h; simp only [run, Except.ok.injEq] at h; simp [h]
  | cons op ops ih =>
    intro w w1 ops₂ h
    simp only [run, List.cons_append] at h ⊢
    cases hx : op.exec checks w with
    | error e => simp [hx] at h
    | ok w2 => simp only [hx] at h ⊢; exact ih w2 w1 ops₂ h

/-! ## The worked examples are states of real programs -/

theorem run_twoVectors :
    run true blank [.construct 10 0, .construct 20 3] = .ok twoVectors := by
  simp [run, Op.exec, construct_eq, twoVectors]

theorem run_shrunk :
    (construct true blank 5 3).bind (fun w => w.set_size 5 0) = .ok shrunk := by
  simp [construct_eq, Except.bind, World.set_size, SVectorBase.set_size, shrunk]

/-! ## Construction -/

/-- C1: for every index `i ≥ 0`, the constructor `UnitVectorBase(i)` returns, and the vector it
built has `size() == 1`, `max() == 1`, `index(0) == i`, `value(0) == 1`, and `isConsistent()`
is true with consistency checks enabled. -/
theorem construct_yields_unit [One R] (w : World R) (this : Addr) (i : Int) (_hi : 0 ≤ i) :
    ∃ w1, construct true w this i = .ok w1 ∧ size w1 this = 1 ∧ max w1 this = 1 ∧
      index w1 this 0 = .ok i ∧ value w1 this 0 = .ok (1 : R) ∧
      isConsistent true w1 this = true := by
  obtain ⟨w1, h1, h2, h3⟩ := good_construct true w [] this i (by simp)
  have hg : Good w1 this := h2 this (by simp)
  refine ⟨w1, h1, hg.2.1, hg.2.2.1, ?_, by simp [value], good_isConsistent true w1 this hg⟩
  rw [good_index w1 this hg, h3]

/-- Witness of C1: `UnitVector(3)`, built at address 7 of the blank memory. -/
theorem construct_yields_unit_witness :
    (0 : Int) ≤ 3 ∧
    ∃ w1, construct true blank 7 3 = .ok w1 ∧ size w1 7 = 1 ∧ max w1 7 = 1 ∧
      index w1 7 0 = .ok 3 ∧ value w1 7 0 = .ok (1 : Int) ∧ isConsistent true w1 7 = true :=
  ⟨by decide, construct_yields_unit blank 7 3 (by decide)⟩

/-! ## Copy construction and copy assignment -/

/-- C2: for every unit vector `u` (an object passing the consistency check) and every new
object `this`, the copy constructor returns; the new vector holds the same (index, value) pair
as `u`, has `size() == 1`, its backing storage `mem()` is its own embedded slot and differs
from the backing storage of `u`; `u` itself is unchanged. -/
theorem copyConstruct_yields_copy [One R] (w : World R) (this u : Addr) (hnew : this ≠ u)
    (hu : isConsistent true w u = true) :
    ∃ w1, copyConstruct true w this u = .ok w1 ∧
      themem w1 this = themem w u ∧
      index w1 this 0 = .ok (themem w u).idx ∧ index w u 0 = .ok (themem w u).idx ∧
      value w1 this 0 = value w u 0 ∧
      size w1 this = 1 ∧ mem w1 this = this ∧ mem w1 this ≠ mem w1 u ∧
      w1.vec u = w.vec u ∧ w1.elem u = w.elem u := by
  obtain ⟨f1, f2, _, _⟩ := fields_of_isConsistent w u hu
  have hne : u ≠ this := fun h => hnew h.symm
  refine ⟨_, copyConstruct_eq true w this u, ?_, ?_, ?_, ?_, ?_, ?_, ?_, ?_, ?_⟩
  · simp [themem]
  · rw [index_of_fields _ this (by simp) (by simp)]
    simp [themem]
  · rw [index_of_fields w u f1 f2]
    simp [themem]
  · simp [value]
  · simp [size]
  · simp [mem]
  · simp [mem, Function.update_noteq hne, f1, hnew]
  · simp [Function.update_noteq hne]
  · simp [Function.update_noteq hne]

/-- Witness of C2: copy-constructing at address 30 from the vector `s` (index 3) of
`twoVectors`. -/
theorem copyConstruct_yields_copy_witness :
    (30 : Addr) ≠ 20 ∧ isConsistent true twoVectors 20 = true ∧
    ∃ w1, copyConstruct true twoVectors 30 20 = .ok w1 ∧
      themem w1 30 = themem twoVectors 20 ∧
      index w1 30 0 = .ok (themem twoVectors 20).idx ∧
      index twoVectors 20 0 = .ok (themem twoVectors 20).idx ∧
      value w1 30 0 = value twoVectors 20 0 ∧
      size w1 30 = 1 ∧ mem w1 30 = 30 ∧ mem w1 30 ≠ mem w1 20 ∧
      w1.vec 20 = twoVectors.vec 20 ∧ w1.elem 20 = twoVectors.elem 20 :=
  ⟨by decide, by decide, copyConstruct_yields_copy twoVectors 30 20 (by decide) (by decide)⟩

/-- C3: for every pair of distinct unit vectors `t` (target) and `s` (source), both passing the
consistency check, the copy assignment `t = s` returns; afterwards the target reports
`index(0) == s.index(0)`, `value(0) == 1` and `size() == 1`, and the backing storage of the
target is still its own embedded slot, different from the backing storage of the source. -/
theorem assign_yields_copy [One R] (w : World R) (t s : Addr) (hne : t ≠ s)
    (ht : isConsistent true w t = true) (hs : isConsistent true w s = true) :
    ∃ w1, assign true w t s = .ok w1 ∧
      index w1 t 0 = index w s 0 ∧ index w s 0 = .ok (themem w s).idx ∧
      value w1 t 0 = .ok (1 : R) ∧ size w1 t = 1 ∧
      mem w1 t = t ∧ mem w1 t ≠ mem w1 s := by
  obtain ⟨t1, _, t3, t4⟩ := fields_of_isConsistent w t ht
  obtain ⟨s1, s2, _, _⟩ := fields_of_isConsistent w s hs
  have hst : s ≠ t := fun h => hne h.symm
  refine ⟨_, assign_eq true w t s hne t1 t3 t4, ?_, ?_, ?_, ?_, ?_, ?_⟩
  · rw [index_of_fields _ t (by simp [t1]) (by simp), index_of_fields w s s1 s2]
    simp
  · rw [index_of_fields w s s1 s2]
    simp [themem]
  · simp [value]
  · simp [size]
  · simp [mem, t1]
  · simp [mem, t1, Function.update_noteq hst, s1, hne]

/-- Witness of C3: assigning `UnitVector(3)` (address 20) into `UnitVector(0)` (address 10). -/
theorem assign_yields_copy_witness :
    (10 : Addr) ≠ 20 ∧ isConsistent true twoVectors 10 = true ∧
    isConsistent true twoVectors 20 = true ∧
    ∃ w1, assign true twoVectors 10 20 = .ok w1 ∧
      index w1 10 0 = index twoVectors 20 0 ∧
      index twoVectors 20 0 = .ok (themem twoVectors 20).idx ∧
      value w1 10 0 = .ok (1 : Int) ∧ size w1 10 = 1 ∧
      mem w1 10 = 10 ∧ mem w1 10 ≠ mem w1 20 :=
  ⟨by decide, by decide, by decide,
    assign_yields_copy twoVectors 10 20 (by decide) (by decide) (by decide)⟩

/-- C4: for every unit vector `u` alive after a program of constructions, copy constructions
and copy assignments, the self-assignment `u = u` returns and leaves the whole memory, hence
every component of the state of `u` (stored element, size, max, storage identity), as it was,
and `isConsistent()` is true afterwards. -/
theorem self_assign_unchanged [One R] (w0 : World R) (ops : List Op) (u : Addr)
    (hp : permitted [] ops = true) (hu : u ∈ liveAfter [] ops) :
    ∃ w w1, run true w0 ops = .ok w ∧ assign true w u u = .ok w1 ∧ w1 = w ∧
      themem w1 u = themem w u ∧ size w1 u = size w u ∧ max w1 u = max w u ∧
      mem w1 u = mem w u ∧ isConsistent true w1 u = true := by
  obtain ⟨w, h1, h2⟩ := good_run true ops w0 [] (by simp) hp
  exact ⟨w, w, h1, by simp [assign], rfl, rfl, rfl, rfl, rfl,
    good_isConsistent true w u (h2 u hu)⟩

/-- Witness of C4: `u = u` for the vector `u` built by `UnitVectorBase<R> u(3);`. -/
theorem self_assign_unchanged_witness :
    permitted [] [Op.construct 5 3] = true ∧ (5 : Addr) ∈ liveAfter [] [Op.construct 5 3] ∧
    ∃ w w1, run true blank [Op.construct 5 3] = .ok w ∧ assign true w 5 5 = .ok w1 ∧ w1 = w ∧
      themem w1 5 = themem w 5 ∧ size w1 5 = size w 5 ∧ max w1 5 = max w 5 ∧
      mem w1 5 = mem w 5 ∧ isConsistent true w1 5 = true :=
  ⟨by decide, by decide, self_assign_unchanged blank [Op.construct 5 3] 5 (by decide) (by decide)⟩

/-- C5: round trip over copies.  After any program `pre` that provides other unit vectors,
build `UnitVectorBase(i)` at `a0` and run any finite chain of copies of the current vector
(copy-construct a new vector from it, or copy-assign it into an existing unit vector): every
statement returns, and the vector obtained at the end has `index(0) == i` and
`value(0) == 1`. -/
theorem copy_chain_round_trip [One R] (w0 : World R) (pre : List Op) (a0 : Addr) (i : Int)
    (steps : List CopyStep)
    (hp : permitted [] (pre ++ Op.construct a0 i :: chainOps a0 steps) = true) :
    ∃ w, run true w0 (pre ++ Op.construct a0 i :: chainOps a0 steps) = .ok w ∧
      index w (chainEnd a0 steps) 0 = .ok i ∧
      value w (chainEnd a0 steps) 0 = .ok (1 : R) := by
  rw [permitted_append] at hp
  simp only [permitted, Bool.and_eq_true] at hp
  obtain ⟨w1, h1, h2⟩ := good_run true pre w0 [] (by simp) hp.1
  obtain ⟨w2, h3, h4, h5⟩ := good_construct true w1 (liveAfter [] pre) a0 i h2
  obtain ⟨w3, h6, h7, h8, h9⟩ :=
    good_chain true steps w2 (a0 :: liveAfter [] pre) a0 h4 (List.mem_cons_self _ _) hp.2.2
  refine ⟨w3, ?_, ?_, by simp [value]⟩
  · rw [run_append true pre w0 w1 _ h1]
    simp [run, Op.exec, h3, h6]
  · rw [good_index w3 _ (h7 _ h8), h9, h5]

/-- Witness of C5: with `UnitVector(0)` at address 10 around, build `UnitVector(3)` at 20,
assign it into 10, copy-construct 30 from 10, assign 30 back into 20. -/
theorem copy_chain_round_trip_witness :
    permitted [] ([Op.construct 10 0] ++ Op.construct 20 3 ::
      chainOps 20 [.copyAssignInto 10, .copyConstruct 30, .copyAssignInto 20]) = true ∧
    ∃ w, run true blank ([Op.construct 10 0] ++ Op.construct 20 3 ::
        chainOps 20 [.copyAssignInto 10, .copyConstruct 30, .copyAssignInto 20]) = .ok w ∧
      index w (chainEnd 20 [.copyAssignInto 10, .copyConstruct 30, .copyAssignInto 20]) 0
        = .ok 3 ∧
      value w (chainEnd 20 [.copyAssignInto 10, .copyConstruct 30, .copyAssignInto 20]) 0
        = .ok (1 : Int) :=
  ⟨by decide, copy_chain_round_trip blank [Op.construct 10 0] 20 3
    [.copyAssignInto 10, .copyConstruct 30, .copyAssignInto 20] (by decide)⟩

/-! ## The invariant -/

/-- C6: the unit-vector invariant is established by the constructor and preserved by
copy construction and copy assignment.  Every program of these statements returns, and for
every vector alive afterwards the backing storage is its own embedded slot, `size() == 1`,
`max() == 1`, and the scalar stored in the slot `themem` equals 1. -/
theorem invariant_of_reachable [One R] (checks : Bool) (w0 : World R) (ops : List Op)
    (hp : permitted [] ops = true) :
    ∃ w, run checks w0 ops = .ok w ∧
      ∀ a ∈ liveAfter [] ops,
        mem w a = a ∧ size w a = 1 ∧ max w a = 1 ∧ (themem w a).val = 1 := by
  obtain ⟨w, h1, h2⟩ := good_run checks ops w0 [] (by simp) hp
  exact ⟨w, h1, fun a ha => ⟨(h2 a ha).1, (h2 a ha).2.1, (h2 a ha).2.2.1, (h2 a ha).2.2.2.2⟩⟩

/-- Witness of C6: construct at 10, copy-construct 20 from it, assign 20 back into 10. -/
theorem invariant_of_reachable_witness :
    permitted [] [Op.construct 10 4, Op.copyConstruct 20 10, Op.assign 10 20] = true ∧
    ∃ w, run true blank [Op.construct 10 4, Op.copyConstruct 20 10, Op.assign 10 20] = .ok w ∧
      ∀ a ∈ liveAfter [] [Op.construct 10 4, Op.copyConstruct 20 10, Op.assign 10 20],
        mem w a = a ∧ size w a = 1 ∧ max w a = 1 ∧ (themem w a).val = 1 :=
  ⟨by decide, invariant_of_reachable true blank
    [Op.construct 10 4, Op.copyConstruct 20 10, Op.assign 10 20] (by decide)⟩

/-! ## `value` -/

/-- C7: `value(0)` returns 1 in every state of the vector: whatever memory `w` holds (any
stored index, any stored scalar, also one different from 1), and in particular after the slot
`themem` has been overwritten by an arbitrary element `e`. -/
theorem value_zero_is_one [One R] (w : World R) (this : Addr) (e : Element R) :
    value w this 0 = .ok (1 : R) ∧
      value { w with elem := Function.update w.elem this e } this 0 = .ok (1 : R) := by
  simp [value]

/-- C8: `value(n)` fails its assertion exactly when `n ≠ 0`, for every integer `n` (negative or
positive), and returns 1 exactly when `n = 0`. -/
theorem value_violation_iff [One R] (w : World R) (this : Addr) (n : Int) :
    (value w this n = (.error .positionOutOfRange : Except Violation R) ↔ n ≠ 0) ∧
      (value w this n = .ok (1 : R) ↔ n = 0) := by
  by_cases h : n = 0 <;> simp [value, h]

/-! ## `isConsistent` -/

/-- C9: with consistency checks enabled, `isConsistent()` is true exactly when `mem()` is the
address of the embedded slot, `size() == 1`, `max() == 1` and the base check
`SVectorBase::isConsistent()` is true.  The check is a function of the memory into `Bool`: it
signals no violation and returns no new memory. -/
theorem isConsistent_iff (w : World R) (this : Addr) :
    isConsistent true w this = true ↔
      (mem w this = this ∧ size w this = 1 ∧ max w this = 1 ∧
        (w.vec this).isConsistent true w.elem = true) := by
  unfold isConsistent
  by_cases h1 : mem w this = this <;> by_cases h2 : size w this = 1 <;>
    by_cases h3 : max w this = 1 <;> simp [h1, h2, h3, SPX_MSG_INCONSISTENT]

/-! ## Self-assignment -/

/-- C10, counterexample: the state `shrunk` is reached by `UnitVectorBase<R> u(3);
u.set_size(0);`; there `u = u` returns the same memory, the size is still 0, and no run of
`u = u` ends with size 1. -/
theorem self_assign_keeps_size_zero :
    (construct true blank 5 3).bind (fun w => w.set_size 5 0) = .ok shrunk ∧
    assign true shrunk 5 5 = .ok shrunk ∧ size shrunk 5 = 0 ∧
    ¬ ∃ w1, assign true shrunk 5 5 = .ok w1 ∧ size w1 5 = 1 := by
  refine ⟨run_shrunk, by simp [assign], by decide, ?_⟩
  rintro ⟨w1, h1, h2⟩
  simp only [assign, ne_eq, not_true_eq_false, ↓reduceIte, Except.ok.injEq] at h1
  subst h1
  revert h2
  decide

/-- C10, as amended: copy assignment to self is a no-op.  For every state of the vector, in
either build configuration, `u = u` returns the memory it was given, so nothing about `u`
changes, the size included (it is not set back to 1). -/
theorem self_assign_noop (checks : Bool) (w : World R) (u : Addr) :
    assign checks w u u = .ok w := by
  simp [assign]

/-! ## Further facts about the three operations -/

theorem construct_elem [One R] (checks : Bool) (w w1 : World R) (a : Addr) (i : Int)
    (h : construct checks w a i = .ok w1) : w1.elem = Function.update w.elem a ⟨i, 1⟩ := by
  rw [construct_eq] at h
  cases h
  rfl

theorem copyConstruct_elem (checks : Bool) (w w1 : World R) (a rhs : Addr)
    (h : copyConstruct checks w a rhs = .ok w1) :
    w1.elem = Function.update w.elem a (w.elem rhs) := by
  rw [copyConstruct_eq] at h
  cases h
  rfl

theorem assign_ok_eq (checks : Bool) (w w1 : World R) (t s : Addr) (hne : t ≠ s)
    (h : assign checks w t s = .ok w1) :
    w1 = { elem := Function.update w.elem t (w.elem s),
           vec := Function.update w.vec t { w.vec t with size := 1 } } := by
  by_cases hm : 1 ≤ (w.vec t).max
  · simp only [assign, hne, ne_eq, not_false_eq_true, ↓reduceIte, World.set_size,
      SVectorBase.set_size, copyElement, themem, assertConsistent, hm, and_true,
      Int.reduceLE] at h
    by_cases hc : isConsistent checks
        ({ elem := Function.update w.elem t (w.elem s),
           vec := Function.update w.vec t { w.vec t with size := 1 } } : World R) t = true
    · simp only [hc, ↓reduceIte, Except.ok.injEq] at h
      exact h.symm
    · simp [hc] at h
  · simp [assign, hne, World.set_size, SVectorBase.set_size, copyElement, themem, hm] at h

theorem assign_elem [One R] (checks : Bool) (w w1 : World R) (t s : Addr)
    (h : assign checks w t s = .ok w1) :
    w1.elem = Function.update w.elem t (w.elem s) := by
  by_cases hne : t = s
  · subst hne
    simp only [assign, ne_eq, not_true_eq_false, ↓reduceIte, Except.ok.injEq] at h
    subst h
    simp
  · rw [assign_ok_eq checks w w1 t s hne h]

theorem index_exec [One R] (checks : Bool) (w : World R) (live : List Addr) (ix : Addr → Int)
    (op : Op) (h : ∀ b ∈ live, Good w b) (hix : ∀ b ∈ live, (w.elem b).idx = ix b)
    (hp : op.permitted live = true) :
    ∃ w1, op.exec checks w = .ok w1 ∧ (∀ b ∈ op.liveAfter live, Good w1 b) ∧
      ∀ b ∈ op.liveAfter live, (w1.elem b).idx = op.indexAfter ix b := by
  obtain ⟨w1, h1, h2⟩ := good_exec checks w live op h hp
  refine ⟨w1, h1, h2, ?_⟩
  cases op with
  | construct a i =>
    intro b hb
    rw [construct_elem checks w w1 a i h1]
    by_cases hba : b = a
    · subst hba
      simp [Op.indexAfter]
    · have hb1 : b ∈ live := by simpa [Op.liveAfter, hba] using hb
      simp [Op.indexAfter, Function.update_noteq hba, hix b hb1]
  | copyConstruct a rhs =>
    simp only [Op.permitted, Bool.and_eq_true, decide_eq_true_eq] at hp
    intro b hb
    rw [copyConstruct_elem checks w w1 a rhs h1]
    by_cases hba : b = a
    · subst hba
      simp [Op.indexAfter, hix rhs hp.2]
    · have hb1 : b ∈ live := by simpa [Op.liveAfter, hba] using hb
      simp [Op.indexAfter, Function.update_noteq hba, hix b hb1]
  | assign t rhs =>
    simp only [Op.permitted, Bool.and_eq_true, decide_eq_true_eq] at hp
    intro b hb
    rw [assign_elem checks w w1 t rhs h1]
    by_cases hbt : b = t
    · subst hbt
      simp [Op.indexAfter, hix rhs hp.2]
    · simp [Op.indexAfter, Function.update_noteq hbt, hix b hb]

theorem index_run [One R] (checks : Bool) (ops : List Op) :
    ∀ (w : World R) (live : List Addr) (ix : Addr → Int), (∀ b ∈ live, Good w b) →
      (∀ b ∈ live, (w.elem b).idx = ix b) → permitted live ops = true →
      ∃ w1, run checks w ops = .ok w1 ∧ (∀ b ∈ liveAfter live ops, Good w1 b) ∧
        ∀ b ∈ liveAfter live ops, (w1.elem b).idx = indexAfter ix ops b := by
  induction ops with
  | nil => intro w live ix h hix _; exact ⟨w, rfl, h, hix⟩
  | cons op ops ih =>
    intro w live ix h hix hp
    simp only [permitted, Bool.and_eq_true] at hp
    obtain ⟨w1, h1, h2, h3⟩ := index_exec checks w live ix op h hix hp.1
    obtain ⟨w2, h4, h5, h6⟩ := ih w1 (op.liveAfter live) (op.indexAfter ix) h2 h3 hp.2
    exact ⟨w2, by simp [run, h1, h4], h5, h6⟩

theorem addAll_fits (es : List (Int × R)) :
    ∀ (s : SVectorBase) (m : Addr → Element R), s.size + es.length ≤ s.max →
      ∃ s1 m1, s.addAll m es = .ok (s1, m1) ∧ s1.size = s.size + es.length ∧
        s1.max = s.max ∧ s1.mem = s.mem := by
  induction es with
  | nil => intro s m _; exact ⟨s, m, rfl, by simp, rfl, rfl⟩
  | cons e es ih =>
    intro s m h
    simp only [List.length_cons, Nat.cast_add, Nat.cast_one] at h
    have hlt : s.size < s.max := by omega
    obtain ⟨s1, m1, h1, h2, h3, h4⟩ :=
      ih { s with size := s.size + 1 } (Function.update m (s.mem + s.size) ⟨e.1, e.2⟩)
        (by simp only; omega)
    refine ⟨s1, m1, ?_, ?_, h3, h4⟩
    · simp [SVectorBase.addAll, SVectorBase.add, hlt, h1]
    · simp only [List.length_cons, Nat.cast_add, Nat.cast_one]
      rw [h2]
      ring

theorem assign_ok_consistent (checks : Bool) (w w1 : World R) (t s : Addr) (hne : t ≠ s)
    (h : assign checks w t s = .ok w1) : isConsistent checks w1 t = true := by
  have he := assign_ok_eq checks w w1 t s hne h
  by_cases hm : 1 ≤ (w.vec t).max
  · simp only [assign, hne, ne_eq, not_false_eq_true, ↓reduceIte, World.set_size,
      SVectorBase.set_size, copyElement, themem, assertConsistent, hm, and_true,
      Int.reduceLE] at h
    by_cases hc : isConsistent checks
        ({ elem := Function.update w.elem t (w.elem s),
           vec := Function.update w.vec t { w.vec t with size := 1 } } : World R) t = true
    · rw [he]
      exact hc
    · simp [hc] at h
  · simp [assign, hne, World.set_size, SVectorBase.set_size, copyElement, themem, hm] at h

/-! ## Substitutability for reading -/

/-- C11: read-only substitutability.  Every program of constructions, copy constructions and
copy assignments returns, and for every vector alive afterwards `size()` is 1, the
specialised `value(0)` (the constant 1) is what the base `SVectorBase::value(0)` reads from
the slot, and `index(0)` is the index the vector was constructed with (followed through the
copies by `indexAfter`). -/
theorem read_only_substitutable [One R] (w0 : World R) (ix0 : Addr → Int) (ops : List Op)
    (hp : permitted [] ops = true) :
    ∃ w, run true w0 ops = .ok w ∧
      ∀ a ∈ liveAfter [] ops,
        size w a = 1 ∧ value w a 0 = (w.vec a).value w.elem 0 ∧
          (w.vec a).value w.elem 0 = .ok (1 : R) ∧
          index w a 0 = .ok (indexAfter ix0 ops a) := by
  obtain ⟨w, h1, h2, h3⟩ := index_run true ops w0 [] ix0 (by simp) (by simp) hp
  refine ⟨w, h1, fun a ha => ?_⟩
  have hg := h2 a ha
  have hv : (w.vec a).value w.elem 0 = .ok (1 : R) := by
    simp [SVectorBase.value, hg.1, hg.2.1, hg.2.2.2.2]
  refine ⟨hg.2.1, ?_, hv, ?_⟩
  · rw [hv]
    simp [value]
  · rw [good_index w a hg, h3 a ha]

/-- Witness of C11: `UnitVector(4)` at 10, a copy of it at 20, `UnitVector(9)` at 30 assigned
into 10. -/
theorem read_only_substitutable_witness :
    permitted []
      [Op.construct 10 4, Op.copyConstruct 20 10, Op.construct 30 9, Op.assign 10 30] = true ∧
    ∃ w, run true blank
        [Op.construct 10 4, Op.copyConstruct 20 10, Op.construct 30 9, Op.assign 10 30]
          = .ok w ∧
      ∀ a ∈ liveAfter []
          [Op.construct 10 4, Op.copyConstruct 20 10, Op.construct 30 9, Op.assign 10 30],
        size w a = 1 ∧ value w a 0 = (w.vec a).value w.elem 0 ∧
          (w.vec a).value w.elem 0 = .ok (1 : Int) ∧
          index w a 0 = .ok (indexAfter (fun _ => 0)
            [Op.construct 10 4, Op.copyConstruct 20 10, Op.construct 30 9, Op.assign 10 30]
            a) :=
  ⟨by decide, read_only_substitutable blank (fun _ => 0)
    [Op.construct 10 4, Op.copyConstruct 20 10, Op.construct 30 9, Op.assign 10 30]
    (by decide)⟩

/-! ## Consistency checks disabled -/

/-- C12: without `ENABLE_CONSISTENCY_CHECKS`, `isConsistent()` is the constant `true`: it is
true in every memory, and in particular after the header of the vector has been replaced by
an arbitrary one (any size, any max, any storage). -/
theorem isConsistent_unchecked (w : World R) (this : Addr) (s : SVectorBase) :
    isConsistent false w this = true ∧
      isConsistent false { w with vec := Function.update w.vec this s } this = true := by
  simp [isConsistent]

/-! ## Capacity -/

/-- C13: a sparse vector created with capacity `max = k` accepts `k` elements: each of the
`k` adds succeeds (after `j` of them the size is `j`), the size ends at `k`, and one more add
signals capacity-exceeded.  For the unit vector, the add performed by the constructor
succeeds and leaves `size() == 1 == max()`, and any further add on the vector built signals
capacity-exceeded. -/
theorem add_until_full [One R] (k : Nat) (p : Addr) (m : Addr → Element R)
    (es : List (Int × R)) (w : World R) (this : Addr) (i : Int) (hlen : es.length = k) :
    (∀ j, j ≤ k → ∃ s1 m1,
        (SVectorBase.create k p).addAll m (es.take j) = .ok (s1, m1) ∧ s1.size = j) ∧
    (∃ s1 m1, (SVectorBase.create k p).addAll m es = .ok (s1, m1) ∧ s1.size = k ∧
        s1.max = k ∧ ∀ j v, s1.add m1 j v = .error .capacityExceeded) ∧
    (∃ w1, (w.create this 1 this).add this i (1 : R) = .ok w1 ∧
        construct true w this i = .ok w1 ∧ size w1 this = 1 ∧ max w1 this = 1 ∧
        ∀ j v, w1.add this j v = .error .capacityExceeded) := by
  refine ⟨?_, ?_, ?_⟩
  · intro j hj
    have hl : (es.take j).length = j := by rw [List.length_take]; omega
    obtain ⟨s1, m1, h1, h2, _, _⟩ :=
      addAll_fits (es.take j) (SVectorBase.create k p) m
        (by simp only [SVectorBase.create, hl]; omega)
    exact ⟨s1, m1, h1, by rw [h2, hl]; simp [SVectorBase.create]⟩
  · obtain ⟨s1, m1, h1, h2, h3, _⟩ :=
      addAll_fits es (SVectorBase.create k p) m (by simp [SVectorBase.create, hlen])
    have h4 : s1.size = k := by rw [h2, hlen]; simp [SVectorBase.create]
    have h5 : s1.max = k := by rw [h3]; simp [SVectorBase.create]
    exact ⟨s1, m1, h1, h4, h5, fun j v => by simp [SVectorBase.add, h4, h5]⟩
  · refine ⟨_, ?_, construct_eq true w this i, by simp [size], by simp [UnitVectorBase.max], ?_⟩
    · simp [World.create, World.add, SVectorBase.create, SVectorBase.add]
    · intro j v
      simp [World.add, SVectorBase.add]

/-- Witness of C13: capacity 2 at address 100 with the elements `(4, 1)` and `(7, 1)`, and
`UnitVector(3)` built at address 7. -/
theorem add_until_full_witness :
    [((4 : Int), (1 : Int)), (7, 1)].length = 2 ∧
    (∀ j, j ≤ 2 → ∃ s1 m1,
        (SVectorBase.create (2 : Nat) 100).addAll blank.elem
          ([((4 : Int), (1 : Int)), (7, 1)].take j) = .ok (s1, m1) ∧ s1.size = j) ∧
    (∃ s1 m1, (SVectorBase.create (2 : Nat) 100).addAll blank.elem
          [((4 : Int), (1 : Int)), (7, 1)] = .ok (s1, m1) ∧ s1.size = (2 : Nat) ∧
        s1.max = (2 : Nat) ∧ ∀ j v, s1.add m1 j v = .error .capacityExceeded) ∧
    (∃ w1, (blank.create 7 1 7).add 7 3 (1 : Int) = .ok w1 ∧
        construct true blank 7 3 = .ok w1 ∧ size w1 7 = 1 ∧ max w1 7 = 1 ∧
        ∀ j v, w1.add 7 j v = .error .capacityExceeded) :=
  ⟨by decide, add_until_full 2 100 blank.elem [(4, 1), (7, 1)] blank 7 3 (by decide)⟩

/-! ## Mutation through the base interface -/

/-- C14: the invariant is not protected against the base interface (the `\todo` of the class
documentation).  For every unit vector built by `UnitVectorBase(i)`, the inherited
`set_size(0)` is accepted, and in the resulting state `size()` is 0, not 1, and
`isConsistent()` with checks enabled returns false. -/
theorem set_size_breaks_invariant [One R] (w : World R) (this : Addr) (i : Int) :
    ∃ w1 w2, construct true w this i = .ok w1 ∧ w1.set_size this 0 = .ok w2 ∧
      size w2 this = 0 ∧ size w2 this ≠ 1 ∧ isConsistent true w2 this = false := by
  refine ⟨_, { elem := Function.update w.elem this ⟨i, 1⟩,
               vec := Function.update w.vec this ⟨this, 0, 1, .borrows this⟩ },
    construct_eq true w this i, ?_, ?_, ?_, ?_⟩
  · simp [World.set_size, SVectorBase.set_size]
  · simp [size]
  · simp [size]
  · simp [isConsistent, mem, size, SPX_MSG_INCONSISTENT]

/-! ## Preconditions of the base layer -/

/-- C15, counterexample: in `aliased` the target at 10 has `max() == 1` and the call
`set_size(1)` is accepted, but `mem()` is not the embedded slot, so with checks enabled the
closing `assert(isConsistent())` of `t = s` fails. -/
theorem assign_onto_aliased_fails :
    max aliased 10 = 1 ∧
    (∃ w1, (copyElement aliased 10 20).set_size 10 1 = .ok w1) ∧
    assign true aliased 10 20 = .error .inconsistent := by
  refine ⟨by decide, ⟨_, rfl⟩, ?_⟩
  simp [assign, World.set_size, SVectorBase.set_size, copyElement, themem, assertConsistent,
    isConsistent, mem, aliased, SPX_MSG_INCONSISTENT]

/-- C15, as amended: inside the operations of the unit vector no precondition of the base
layer is violated.  In every memory, for every index and every source, the `add` of the
constructor and the `set_size(1)` of the copy constructor are accepted and both operations
return (their closing assertion holds).  Copy assignment onto a target with `max() == 1`
has its `set_size(1)` accepted and never ends in capacity-exceeded or size-out-of-range; it
returns (its closing assertion holds) when the storage of the target is its own embedded
slot, as declared at construction, or when consistency checks are disabled. -/
theorem own_operations_safe [One R] (checks : Bool) (w : World R) (this t rhs : Addr)
    (i : Int) (hmax : max w t = 1) :
    (∃ w1, (w.create this 1 this).add this i (1 : R) = .ok w1 ∧
        construct checks w this i = .ok w1) ∧
    (∃ w1, (copyElement (w.create this 1 this) this rhs).set_size this 1 = .ok w1 ∧
        copyConstruct checks w this rhs = .ok w1) ∧
    (∃ w1, (copyElement w t rhs).set_size t 1 = .ok w1) ∧
    assign checks w t rhs ≠ .error .capacityExceeded ∧
    assign checks w t rhs ≠ .error .sizeOutOfRange ∧
    ((mem w t = t ∧ (w.vec t).mode.region = t) ∨ checks = false →
      ∃ w1, assign checks w t rhs = .ok w1) := by
  have hm : (w.vec t).max = 1 := hmax
  refine ⟨⟨_, ?_, construct_eq checks w this i⟩, ⟨_, ?_, copyConstruct_eq checks w this rhs⟩,
    ⟨{ elem := Function.update w.elem t (w.elem rhs),
       vec := Function.update w.vec t { w.vec t with size := 1 } },
      by simp [World.set_size, SVectorBase.set_size, copyElement, themem, hm]⟩, ?_, ?_, ?_⟩
  · simp [World.create, World.add, SVectorBase.create, SVectorBase.add]
  · simp [World.create, World.set_size, SVectorBase.create, SVectorBase.set_size, copyElement,
      themem]
  · by_cases hne : t = rhs
    · simp [assign, hne]
    · simp only [assign, hne, ne_eq, not_false_eq_true, ↓reduceIte, World.set_size,
        SVectorBase.set_size, hm, copyElement, assertConsistent]
      simp only [Int.reduceLE, le_refl, and_self, ↓reduceIte]
      split <;> simp
  · by_cases hne : t = rhs
    · simp [assign, hne]
    · simp only [assign, hne, ne_eq, not_false_eq_true, ↓reduceIte, World.set_size,
        SVectorBase.set_size, hm, copyElement, assertConsistent]
      simp only [Int.reduceLE, le_refl, and_self, ↓reduceIte]
      split <;> simp
  · intro h
    by_cases hne : t = rhs
    · exact ⟨w, by simp [assign, hne]⟩
    · rcases h with ⟨h1, h4⟩ | hc
      · exact ⟨_, assign_eq checks w t rhs hne h1 hm h4⟩
      · subst hc
        exact ⟨{ elem := Function.update w.elem t (w.elem rhs),
                 vec := Function.update w.vec t { w.vec t with size := 1 } },
          by simp [assign, hne, World.set_size, SVectorBase.set_size, hm, copyElement, themem,
            assertConsistent, isConsistent]⟩

/-- Witness of C15: the target is the vector of `shrunk` (size 0 after `set_size(0)`,
`max() == 1`), the source is the object at 20. -/
theorem own_operations_safe_witness :
    max shrunk 5 = 1 ∧
    (∃ w1, (shrunk.create 7 1 7).add 7 3 (1 : Int) = .ok w1 ∧
        construct true shrunk 7 3 = .ok w1) ∧
    (∃ w1, (copyElement (shrunk.create 7 1 7) 7 20).set_size 7 1 = .ok w1 ∧
        copyConstruct true shrunk 7 20 = .ok w1) ∧
    (∃ w1, (copyElement shrunk 5 20).set_size 5 1 = .ok w1) ∧
    assign true shrunk 5 20 ≠ .error .capacityExceeded ∧
    assign true shrunk 5 20 ≠ .error .sizeOutOfRange ∧
    ((mem shrunk 5 = 5 ∧ (shrunk.vec 5).mode.region = 5) ∨ true = false →
      ∃ w1, assign true shrunk 5 20 = .ok w1) :=
  ⟨by decide, own_operations_safe true shrunk 7 5 20 3 (by decide)⟩

/-! ## What copy assignment writes -/

/-- C16: the copy assignment `t = s` of distinct objects writes only the embedded element and
the size of the target.  Whenever it returns, the memory is the old one with the element of
`t` replaced by the element of `s` and the size of `t` set to 1: `max()` and `mem()` of the
target are what they were, every other object, the source included, is unchanged.  It does
return in a build without consistency checks when `1 ≤ max()`, and there a target whose
`max()` or storage identity was inconsistent is still inconsistent afterwards; with checks
enabled such a target makes the closing assertion fail. -/
theorem assign_frame (checks : Bool) (w : World R) (t s : Addr) (hne : t ≠ s) :
    (∀ w1, assign checks w t s = .ok w1 →
      w1.elem = Function.update w.elem t (w.elem s) ∧
      w1.vec = Function.update w.vec t { w.vec t with size := 1 } ∧
      max w1 t = max w t ∧ mem w1 t = mem w t ∧
      w1.vec s = w.vec s ∧ w1.elem s = w.elem s ∧
      ∀ b, b ≠ t → w1.vec b = w.vec b ∧ w1.elem b = w.elem b) ∧
    (1 ≤ max w t → ∃ w1, assign false w t s = .ok w1 ∧
      (mem w t ≠ t ∨ max w t ≠ 1 → isConsistent true w1 t = false)) ∧
    (mem w t ≠ t ∨ max w t ≠ 1 → ∀ w1, assign true w t s ≠ .ok w1) := by
  have hst : s ≠ t := fun h => hne h.symm
  have hbad : mem w t ≠ t ∨ max w t ≠ 1 →
      isConsistent true
        ({ elem := Function.update w.elem t (w.elem s),
           vec := Function.update w.vec t { w.vec t with size := 1 } } : World R) t = false := by
    intro h
    rcases h with h | h
    · simp only [mem] at h
      simp [isConsistent, mem, h, SPX_MSG_INCONSISTENT]
    · simp only [UnitVectorBase.max] at h
      simp [isConsistent, mem, size, UnitVectorBase.max, h, SPX_MSG_INCONSISTENT]
  refine ⟨?_, ?_, ?_⟩
  · intro w1 h
    rw [assign_ok_eq checks w w1 t s hne h]
    refine ⟨rfl, rfl, by simp [UnitVectorBase.max], by simp [mem], ?_, ?_, ?_⟩
    · simp [Function.update_noteq hst]
    · simp [Function.update_noteq hst]
    · intro b hb
      simp [Function.update_noteq hb]
  · intro hm
    have hm1 : 1 ≤ (w.vec t).max := hm
    refine ⟨{ elem := Function.update w.elem t (w.elem s),
              vec := Function.update w.vec t { w.vec t with size := 1 } }, ?_, hbad⟩
    simp [assign, hne, World.set_size, SVectorBase.set_size, hm1, copyElement, themem,
      assertConsistent, isConsistent]
  · intro h w1 h1
    have hc := assign_ok_consistent true w w1 t s hne h1
    rw [assign_ok_eq true w w1 t s hne h1, hbad h] at hc
    cases hc

/-- Witness of C16: assigning the vector at 20 into the vector at 10 in `twoVectors`. -/
theorem assign_frame_witness :
    (10 : Addr) ≠ 20 ∧
    (∀ w1, assign true twoVectors 10 20 = .ok w1 →
      w1.elem = Function.update twoVectors.elem 10 (twoVectors.elem 20) ∧
      w1.vec = Function.update twoVectors.vec 10 { twoVectors.vec 10 with size := 1 } ∧
      max w1 10 = max twoVectors 10 ∧ mem w1 10 = mem twoVectors 10 ∧
      w1.vec 20 = twoVectors.vec 20 ∧ w1.elem 20 = twoVectors.elem 20 ∧
      ∀ b, b ≠ 10 → w1.vec b = twoVectors.vec b ∧ w1.elem b = twoVectors.elem b) ∧
    (1 ≤ max twoVectors 10 → ∃ w1, assign false twoVectors 10 20 = .ok w1 ∧
      (mem twoVectors 10 ≠ 10 ∨ max twoVectors 10 ≠ 1 → isConsistent true w1 10 = false)) ∧
    (mem twoVectors 10 ≠ 10 ∨ max twoVectors 10 ≠ 1 →
      ∀ w1, assign true twoVectors 10 20 ≠ .ok w1) :=
  ⟨by decide, assign_frame true twoVectors 10 20 (by decide)⟩

/-! ## Indices are not validated -/

theorem invariant_of_fields (s : SVectorBase) (m : Addr → Element R) (h1 : s.size = 1)
    (h2 : s.max = 1) : s.invariant m = decide (0 ≤ (m s.mem).idx) := by
  simp [SVectorBase.invariant, h1, h2, List.range_succ]

/-- C17: the constructor does not validate its index.  For every integer `i`, negative ones
included, `UnitVectorBase(i)` returns, `index(0) == i`, `size() == 1` and `isConsistent()`
with checks enabled is true; the data-model invariant of section 3 (indices are
non-negative) holds for the vector built exactly when `0 ≤ i`, so for a negative `i` the
consistency check accepts a vector that violates it. -/
theorem construct_any_index [One R] (w : World R) (this : Addr) (i : Int) :
    ∃ w1, construct true w this i = .ok w1 ∧ index w1 this 0 = .ok i ∧ size w1 this = 1 ∧
      isConsistent true w1 this = true ∧
      (w1.vec this).invariant w1.elem = decide (0 ≤ i) := by
  obtain ⟨w1, h1, h2, h3⟩ := good_construct true w [] this i (by simp)
  have hg : Good w1 this := h2 this (by simp)
  refine ⟨w1, h1, ?_, hg.2.1, good_isConsistent true w1 this hg, ?_⟩
  · rw [good_index w1 this hg, h3]
  · rw [invariant_of_fields _ _ hg.2.1 hg.2.2.1, hg.1, h3]

end soplex
